import Mathlib

/-!
Verification of the num-huarongdao sliding-puzzle core (src/num_hrd.rs and
src/error.rs) against its natural-language specification.

The Rust code is shallowly embedded: `u8`/`usize` values become `Nat` with
explicit `% 256` where u8 overflow matters, Rust `Result<T, ErrorKind>`
becomes `Except ErrorKind T`, and a Rust panic (out-of-bounds `Vec` indexing,
arithmetic overflow in debug builds) is modelled as the outer
`Except.error (msg : String)` layer of each fallible operation.
-/

namespace Huarongdao

/-- Direction the blank is asked to move (enum `Direction` in src/num_hrd.rs). -/
inductive Direction where
  | Top
  | Bottom
  | Left
  | Right
  deriving DecidableEq, Repr

/-- A numbered tile (struct `Num` in src/num_hrd.rs); field `n` is the value and
`n = 0` denotes the blank.  Rust derives `PartialEq` comparing `n`, which is
exactly the derived `DecidableEq` here. -/
structure Num where
  n : Nat
  deriving DecidableEq, Repr

/-- Constructor `Num::new(n: &usize)`. -/
def Num.new (m : Nat) : Num := { n := m }

/-- Method `Num::is_empty`: the tile is the blank. -/
def Num.is_empty (x : Num) : Bool := x.n == 0

/-- Method `Num::get_n`. -/
def Num.get_n (x : Num) : Nat := x.n

/-- The board (struct `NumHrd` in src/num_hrd.rs): `size` is the side length
(a `u8` in Rust, so at most 255) and `nums` is the row-major tile vector. -/
structure NumHrd where
  size : Nat
  nums : List Num
  deriving DecidableEq, Repr

/-- Error enumeration (enum `ErrorKind` in src/error.rs). -/
inductive ErrorKind where
  | ZeroNotFound
  | CannotExchangeNoneZero
  | CannotExchangeNotNeighbouring
  deriving DecidableEq, Repr

/-- Constructor `NumHrd::new(s: &u8)`.  Rust computes `(s * s).into()` with a
`u8` multiplication: in release builds the product wraps modulo 256 (modelled
by the explicit `% 256`); in debug builds an overflowing `s * s` panics, which
is captured separately by `u8_square_overflows`.  The vector is filled with
values `1, 2, ..., nums_len - 1` followed by the blank `0`. -/
def NumHrd.new (s : Nat) : NumHrd :=
  let nums_len : Nat := (s * s) % 256
  { size := s
    nums := (List.range' 1 (nums_len - 1)).map Num.new ++ [Num.new 0] }

/-- Predicate for the debug-build panic in `NumHrd::new`: the `u8` product
`s * s` overflows exactly when it reaches 256. -/
def u8_square_overflows (s : Nat) : Prop := 256 ≤ s * s

instance (s : Nat) : Decidable (u8_square_overflows s) := by
  unfold u8_square_overflows
  infer_instance

/-- Method `NumHrd::num_by_index`: returns `none` when `n > self.nums.len()`;
otherwise indexes `self.nums[n]`, which panics (modelled by `Except.error`)
when `n` equals the length, since the guard uses `>` rather than `>=`. -/
def NumHrd.num_by_index (h : NumHrd) (idx : Nat) : Except String (Option Num) :=
  if idx > h.nums.length then
    Except.ok none
  else
    match h.nums[idx]? with
    | some v => Except.ok (some v)
    | none => Except.error "index out of bounds"

/-- Method `NumHrd::is_neighbouring`: compares `|one - other|` (computed in
`i64`; the indices reaching it in this development are far below `2^63`, so
plain integer subtraction is exact) with 1 and with the side length. -/
def NumHrd.is_neighbouring (h : NumHrd) (one other : Nat) : Bool :=
  let diff := ((one : Int) - (other : Int)).natAbs
  diff == 1 || diff == h.size

/-- The index-locating loop inside `NumHrd::exchange`: walks the vector with a
counter `i` starting at 0 and records the latest position whose tile equals
`one` and the latest position whose tile equals `other`, both accumulators
starting at 0. -/
def scanFrom (one other : Num) : List Num → Nat → Nat → Nat → Nat × Nat
  | [], _, one_i, other_i => (one_i, other_i)
  | num :: rest, i, one_i, other_i =>
      scanFrom one other rest (i + 1)
        (if num = one then i else one_i)
        (if num = other then i else other_i)

/-- Method `NumHrd::exchange`: looks both indices up (each lookup can panic at
index = length), rejects with `CannotExchangeNotNeighbouring` when a lookup
returns `None` or when the indices are not neighbouring, rejects with
`CannotExchangeNoneZero` when neither tile is the blank, succeeds as a no-op
when the indices are equal, and otherwise locates both tiles by value with
`scanFrom` and swaps their `n` fields in place. -/
def NumHrd.exchange (h : NumHrd) (one_index other_index : Nat) :
    Except String (NumHrd × Except ErrorKind Unit) :=
  match h.num_by_index one_index, h.num_by_index other_index with
  | Except.error msg, _ => Except.error msg
  | Except.ok _, Except.error msg => Except.error msg
  | Except.ok none, Except.ok _ =>
      Except.ok (h, Except.error ErrorKind.CannotExchangeNotNeighbouring)
  | Except.ok (some _), Except.ok none =>
      Except.ok (h, Except.error ErrorKind.CannotExchangeNotNeighbouring)
  | Except.ok (some one), Except.ok (some other) =>
      if !(h.is_neighbouring one_index other_index) then
        Except.ok (h, Except.error ErrorKind.CannotExchangeNotNeighbouring)
      else if !one.is_empty && !other.is_empty then
        Except.ok (h, Except.error ErrorKind.CannotExchangeNoneZero)
      else if one_index == other_index then
        Except.ok (h, Except.ok ())
      else
        match h.nums[(scanFrom one other h.nums 0 0 0).1]?,
              h.nums[(scanFrom one other h.nums 0 0 0).2]? with
        | some temp, some other_val =>
            Except.ok
              ({ h with
                 nums := (h.nums.set (scanFrom one other h.nums 0 0 0).1 other_val).set
                   (scanFrom one other h.nums 0 0 0).2 temp },
               Except.ok ())
        | _, _ => Except.error "index out of bounds"

/-- Method `NumHrd::num_by_point`: composes `index_by_point` and `num_by_index`. -/
def NumHrd.index_by_point (h : NumHrd) (p : Nat × Nat) : Nat :=
  (p.1 * h.size + p.2) % 256

/-- Method `NumHrd::num_by_point` (the `% 256` inside `index_by_point` models
the `u8` arithmetic of `p.0 * self.size + p.1`). -/
def NumHrd.num_by_point (h : NumHrd) (p : Nat × Nat) : Except String (Option Num) :=
  h.num_by_index (h.index_by_point p)

/-- Method `NumHrd::index_by_n`: first position holding value `m`. -/
def NumHrd.index_by_n (h : NumHrd) (m : Nat) : Option Nat :=
  h.nums.findIdx? (fun x => x.n == m)

/-- Method `NumHrd::is_win`: structural equality with a freshly built board of
the same side. -/
def NumHrd.is_win (h : NumHrd) : Bool :=
  h.nums == (NumHrd.new h.size).nums

/-- Method `NumHrd::get_dirction_index` (source spelling kept): neighbour index
in a given direction, `none` at the border.  Rust would panic on `% 0` when
`size = 0`; all boards considered by the claims have `size ≥ 1`. -/
def NumHrd.get_dirction_index (h : NumHrd) (index : Nat) (d : Direction) : Option Nat :=
  let tmp_size := h.size
  match d with
  | Direction.Left =>
      if index % tmp_size = 0 then none else some (index - 1)
  | Direction.Right =>
      if index % tmp_size + 1 = tmp_size then none else some (index + 1)
  | Direction.Top =>
      if index / tmp_size = 0 then none else some (index - tmp_size)
  | Direction.Bottom =>
      if index / tmp_size = tmp_size - 1 then none else some (index + tmp_size)

/-- Method `NumHrd::zero_move`: finds the blank, computes the directional
neighbour, exchanges when one exists (propagating any exchange error via `?`),
and reports `ZeroNotFound` when no blank exists. -/
def NumHrd.zero_move (h : NumHrd) (d : Direction) :
    Except String (NumHrd × Except ErrorKind Bool) :=
  match h.index_by_n 0 with
  | some zero_index =>
      match h.get_dirction_index zero_index d with
      | some other_index =>
          match h.exchange zero_index other_index with
          | Except.error msg => Except.error msg
          | Except.ok (h2, Except.error e) => Except.ok (h2, Except.error e)
          | Except.ok (h2, Except.ok _) => Except.ok (h2, Except.ok true)
      | none => Except.ok (h, Except.ok true)
  | none => Except.ok (h, Except.error ErrorKind.ZeroNotFound)

/-- Method `NumHrd::move_num`: exchanges the given index with the blank,
collapsing the exchange result to a boolean. -/
def NumHrd.move_num (h : NumHrd) (index : Nat) : Except String (NumHrd × Bool) :=
  match h.index_by_n 0 with
  | some zero_index =>
      match h.exchange index zero_index with
      | Except.error msg => Except.error msg
      | Except.ok (h2, Except.ok _) => Except.ok (h2, true)
      | Except.ok (h2, Except.error _) => Except.ok (h2, false)
  | none => Except.ok (h, false)

/-- Method `NumHrd::move_num_by_point`. -/
def NumHrd.move_num_by_point (h : NumHrd) (p : Nat × Nat) : Except String (NumHrd × Bool) :=
  h.move_num (h.index_by_point p)

/-- One mutating call from the public surface the invariant claims quantify
over: `exchange`, `zero_move` or `move_num`. -/
inductive Op where
  | exchangeOp (i j : Nat)
  | zeroMoveOp (d : Direction)
  | moveNumOp (i : Nat)

/-- Applies one call, keeping the board state whether the call answered `Ok`
or `Err`; only a Rust panic (the outer `Except.error`) aborts. -/
def applyOp (h : NumHrd) : Op → Except String NumHrd
  | Op.exchangeOp i j =>
      match h.exchange i j with
      | Except.error msg => Except.error msg
      | Except.ok (h2, _) => Except.ok h2
  | Op.zeroMoveOp d =>
      match h.zero_move d with
      | Except.error msg => Except.error msg
      | Except.ok (h2, _) => Except.ok h2
  | Op.moveNumOp i =>
      match h.move_num i with
      | Except.error msg => Except.error msg
      | Except.ok (h2, _) => Except.ok h2

/-- Applies a sequence of calls in order. -/
def applyOps : NumHrd → List Op → Except String NumHrd
  | h, [] => Except.ok h
  | h, op :: rest =>
      match applyOp h op with
      | Except.error msg => Except.error msg
      | Except.ok h2 => applyOps h2 rest

/-- Modelled from the spec: the repository's Shuffler is not under src/ (only
board code and error code are), so its loop body is taken from spec section
4.6: each iteration calls `board.move_blank(direction)` (the board method
`zero_move`) with the next drawn direction and stops at the first failure.
`runMoves` runs one such drawn list of directions. -/
def runMoves : NumHrd → List Direction → Except String (NumHrd × Except ErrorKind Unit)
  | h, [] => Except.ok (h, Except.ok ())
  | h, d :: rest =>
      match h.zero_move d with
      | Except.error msg => Except.error msg
      | Except.ok (h2, Except.error e) => Except.ok (h2, Except.error e)
      | Except.ok (h2, Except.ok _) => runMoves h2 rest

/-- Modelled from the spec: the Shuffler's counted loop, with `src i` the i-th
draw from the injected random source.  Performs the remaining `count`
iterations starting from draw index `i`. -/
def shuffleFrom (src : Nat → Direction) :
    Nat → Nat → NumHrd → Except String (NumHrd × Except ErrorKind Unit)
  | 0, _, h => Except.ok (h, Except.ok ())
  | Nat.succ k, i, h =>
      match h.zero_move (src i) with
      | Except.error msg => Except.error msg
      | Except.ok (h2, Except.error e) => Except.ok (h2, Except.error e)
      | Except.ok (h2, Except.ok _) => shuffleFrom src k (i + 1) h2

/-- Modelled from the spec: `shuffle(board, move_count, random_source)`
performs `move_count` iterations, drawing one direction per iteration from the
injected source and moving the blank, stopping at the first failure. -/
def shuffle (h : NumHrd) (move_count : Nat) (src : Nat → Direction) :
    Except String (NumHrd × Except ErrorKind Unit) :=
  shuffleFrom src move_count 0 h

/-! ## Helper lemmas -/

/-- Consing a list's m-th element onto the list with position m overwritten by
`x` permutes consing `x` onto the original list. -/
theorem cons_set_perm (l : List Num) (m : Nat) (b x : Num) (hb : l[m]? = some b) :
    (b :: l.set m x).Perm (x :: l) := by
  induction l generalizing m with
  | nil => simp at hb
  | cons y ys ih =>
      cases m with
      | zero =>
          simp only [List.getElem?_cons_zero, Option.some.injEq] at hb
          subst hb
          simpa using List.Perm.swap x y ys
      | succ k =>
          simp only [List.getElem?_cons_succ] at hb
          have hstep : (b :: (y :: ys).set (k + 1) x) = b :: y :: ys.set k x := by
            simp
          rw [hstep]
          exact ((List.Perm.swap y b (ys.set k x)).trans
            ((ih k hb).cons y)).trans (List.Perm.swap x y ys)

/-- Writing a list's j-th element to position i and its i-th element to
position j permutes the list. -/
theorem set_set_swap_perm (l : List Num) (i j : Nat) (a b : Num)
    (ha : l[i]? = some a) (hb : l[j]? = some b) :
    ((l.set i b).set j a).Perm l := by
  induction l generalizing i j with
  | nil => simp at ha
  | cons x xs ih =>
      cases i with
      | zero =>
          simp only [List.getElem?_cons_zero, Option.some.injEq] at ha
          subst ha
          cases j with
          | zero =>
              simp only [List.getElem?_cons_zero, Option.some.injEq] at hb
              subst hb
              simp
          | succ m =>
              simp only [List.getElem?_cons_succ] at hb
              simpa using cons_set_perm xs m b x hb
      | succ k =>
          simp only [List.getElem?_cons_succ] at ha
          cases j with
          | zero =>
              simp only [List.getElem?_cons_zero, Option.some.injEq] at hb
              subst hb
              simpa using cons_set_perm xs k a x ha
          | succ m =>
              simp only [List.getElem?_cons_succ] at hb
              simpa [List.set_cons_succ] using (ih k m ha hb).cons x

/-- A successful optional lookup implies the index is in range. -/
theorem lt_length_of_getElem?_some {l : List Num} {m : Nat} {v : Num}
    (hm : l[m]? = some v) : m < l.length := by
  by_contra hcon
  rw [List.getElem?_eq_none (Nat.le_of_not_lt hcon)] at hm
  cases hm

/-- Inversion for `num_by_index`: answering a tile means the optional lookup
at that index answers the same tile. -/
theorem num_by_index_ok_some {h : NumHrd} {idx : Nat} {v : Num}
    (hv : h.num_by_index idx = Except.ok (some v)) : h.nums[idx]? = some v := by
  unfold NumHrd.num_by_index at hv
  split at hv
  · cases hv
  · split at hv
    · simp_all
    · cases hv

/-- Computation rule for `num_by_index` on an in-range index. -/
theorem num_by_index_of_lt (h : NumHrd) (idx : Nat) (hlt : idx < h.nums.length) :
    h.num_by_index idx = Except.ok h.nums[idx]? := by
  unfold NumHrd.num_by_index
  rw [if_neg (by omega), List.getElem?_eq_getElem hlt]

/-- An exchange call that returns (with either verdict) permutes the tile
vector: every branch either leaves the board untouched or swaps two
positions. -/
theorem exchange_nums_perm {h h2 : NumHrd} {i j : Nat} {r : Except ErrorKind Unit}
    (hex : h.exchange i j = Except.ok (h2, r)) : h2.nums.Perm h.nums := by
  unfold NumHrd.exchange at hex
  split at hex
  · cases hex
  · cases hex
  · simp only [Except.ok.injEq, Prod.mk.injEq] at hex
    rw [← hex.1]
  · simp only [Except.ok.injEq, Prod.mk.injEq] at hex
    rw [← hex.1]
  · split at hex
    · simp only [Except.ok.injEq, Prod.mk.injEq] at hex
      rw [← hex.1]
    · split at hex
      · simp only [Except.ok.injEq, Prod.mk.injEq] at hex
        rw [← hex.1]
      · split at hex
        · simp only [Except.ok.injEq, Prod.mk.injEq] at hex
          rw [← hex.1]
        · split at hex
          · rename_i one other _ _ _ _ temp other_val htemp hother
            simp only [Except.ok.injEq, Prod.mk.injEq] at hex
            rw [← hex.1]
            exact set_set_swap_perm h.nums _ _ temp other_val htemp hother
          · cases hex

/-- A zero_move call that returns permutes the tile vector. -/
theorem zero_move_nums_perm {h h2 : NumHrd} {d : Direction} {r : Except ErrorKind Bool}
    (hz : h.zero_move d = Except.ok (h2, r)) : h2.nums.Perm h.nums := by
  unfold NumHrd.zero_move at hz
  split at hz
  · split at hz
    · split at hz
      · cases hz
      · rename_i hx
        simp only [Except.ok.injEq, Prod.mk.injEq] at hz
        rw [← hz.1]
        exact exchange_nums_perm hx
      · rename_i hx
        simp only [Except.ok.injEq, Prod.mk.injEq] at hz
        rw [← hz.1]
        exact exchange_nums_perm hx
    · simp only [Except.ok.injEq, Prod.mk.injEq] at hz
      rw [← hz.1]
  · simp only [Except.ok.injEq, Prod.mk.injEq] at hz
    rw [← hz.1]

/-- A move_num call that returns permutes the tile vector. -/
theorem move_num_nums_perm {h h2 : NumHrd} {index : Nat} {b : Bool}
    (hm : h.move_num index = Except.ok (h2, b)) : h2.nums.Perm h.nums := by
  unfold NumHrd.move_num at hm
  split at hm
  · split at hm
    · cases hm
    · rename_i hx
      simp only [Except.ok.injEq, Prod.mk.injEq] at hm
      rw [← hm.1]
      exact exchange_nums_perm hx
    · rename_i hx
      simp only [Except.ok.injEq, Prod.mk.injEq] at hm
      rw [← hm.1]
      exact exchange_nums_perm hx
  · simp only [Except.ok.injEq, Prod.mk.injEq] at hm
    rw [← hm.1]

/-- One public mutating call that returns permutes the tile vector. -/
theorem applyOp_nums_perm {h h2 : NumHrd} {op : Op}
    (hop : applyOp h op = Except.ok h2) : h2.nums.Perm h.nums := by
  cases op with
  | exchangeOp i j =>
      simp only [applyOp] at hop
      split at hop
      · cases hop
      · rename_i h3 r hx
        cases hop
        exact exchange_nums_perm hx
  | zeroMoveOp d =>
      simp only [applyOp] at hop
      split at hop
      · cases hop
      · rename_i h3 r hx
        cases hop
        exact zero_move_nums_perm hx
  | moveNumOp i =>
      simp only [applyOp] at hop
      split at hop
      · cases hop
      · rename_i h3 r hx
        cases hop
        exact move_num_nums_perm hx

/-- A whole sequence of public mutating calls that return permutes the tile
vector. -/
theorem applyOps_nums_perm {h h2 : NumHrd} {ops : List Op}
    (hops : applyOps h ops = Except.ok h2) : h2.nums.Perm h.nums := by
  induction ops generalizing h with
  | nil =>
      unfold applyOps at hops
      cases hops
      exact List.Perm.refl _
  | cons op rest ih =>
      unfold applyOps at hops
      split at hops
      · cases hops
      · rename_i h3 hop
        exact (ih hops).trans (applyOp_nums_perm hop)

/-- Tile values of a freshly built board, in construction order. -/
theorem new_nums_map (s : Nat) :
    (NumHrd.new s).nums.map Num.n = List.range' 1 ((s * s) % 256 - 1) ++ [0] := by
  unfold NumHrd.new
  simp [List.map_map, Function.comp_def, Num.new]

/-- Cell count of a freshly built board in terms of the wrapped u8 product. -/
theorem new_nums_length (s : Nat) :
    (NumHrd.new s).nums.length = ((s * s) % 256 - 1) + 1 := by
  unfold NumHrd.new
  simp

/-- For sides 2..15 the fresh board's tile values are a permutation of
0, ..., s*s - 1. -/
theorem new_nums_perm_range (s : Nat) (hs2 : 2 ≤ s) (hs15 : s ≤ 15) :
    ((NumHrd.new s).nums.map Num.n).Perm (List.range (s * s)) := by
  have hle : s * s ≤ 225 := Nat.mul_le_mul hs15 hs15
  have h4 : 4 ≤ s * s := Nat.mul_le_mul hs2 hs2
  rw [new_nums_map, Nat.mod_eq_of_lt (by omega)]
  obtain ⟨k, hk⟩ : ∃ k, s * s = k + 1 := ⟨s * s - 1, by omega⟩
  rw [hk]
  have hr : List.range (k + 1) = 0 :: List.range' 1 k := by
    rw [List.range_eq_range']
    rfl
  rw [hr]
  exact List.perm_append_singleton 0 (List.range' 1 k)

/-! ## Claims -/

/-- Claim C10 (confirmed): `NumHrd::new` computes the cell count with a `u8`
multiplication, so the fresh board has exactly s*s cells for sides 2..15,
while every side from 16 up overflows the `u8` product (a debug-build panic,
wrapping modulo 256 in release builds, where the cell count then differs
from s*s). -/
theorem c10_u8_overflow (s : Nat) (hu8 : s ≤ 255) :
    (2 ≤ s → s ≤ 15 →
      ¬ u8_square_overflows s ∧ (NumHrd.new s).nums.length = s * s) ∧
    (16 ≤ s →
      u8_square_overflows s ∧ (NumHrd.new s).nums.length ≠ s * s) := by
  constructor
  · intro hs2 hs15
    have hle : s * s ≤ 225 := Nat.mul_le_mul hs15 hs15
    have h4 : 4 ≤ s * s := Nat.mul_le_mul hs2 hs2
    refine ⟨?_, ?_⟩
    · unfold u8_square_overflows
      omega
    · rw [new_nums_length, Nat.mod_eq_of_lt (by omega)]
      omega
  · intro hs16
    have hge : 256 ≤ s * s := Nat.mul_le_mul hs16 hs16
    have hmodlt : (s * s) % 256 < 256 := Nat.mod_lt _ (by omega)
    refine ⟨hge, ?_⟩
    rw [new_nums_length]
    omega

/-- Claim C10 witness: the theorem applied at the overflowing side 16 and at
the exact side 3. -/
theorem c10_witness :
    (16 ≤ 255 ∧ 3 ≤ 255) ∧
    (u8_square_overflows 16 ∧ (NumHrd.new 16).nums.length ≠ 16 * 16) ∧
    (¬ u8_square_overflows 3 ∧ (NumHrd.new 3).nums.length = 3 * 3) :=
  ⟨⟨by omega, by omega⟩,
   (c10_u8_overflow 16 (by omega)).2 (by omega),
   (c10_u8_overflow 3 (by omega)).1 (by omega) (by omega)⟩

/-- Claim C1 counterexample: the claim quantifies over every side from 2 up,
but at side 16 the u8 product in `NumHrd::new` wraps to 0, so already the
freshly created board (the empty call sequence) has a single cell and its
value multiset is not 0, ..., 16*16 - 1. -/
theorem c1_counterexample :
    applyOps (NumHrd.new 16) [] = Except.ok (NumHrd.new 16) ∧
    ¬ ((NumHrd.new 16).nums.map Num.n).Perm (List.range (16 * 16)) := by
  refine ⟨rfl, fun hp => ?_⟩
  have hlen := hp.length_eq
  rw [List.length_map, new_nums_length] at hlen
  simp at hlen

/-- Claim C1 (corrected to sides 2..15, where the u8 product in `new` is
exact): for every board created by `NumHrd::new` and every sequence of
`exchange`, `zero_move` and `move_num` calls that return (whether Ok or Err),
the multiset of tile values stays exactly 0, ..., s*s - 1, and in particular
exactly one cell holds value 0. -/
theorem c1_multiset_invariant (s : Nat) (hs2 : 2 ≤ s) (hs15 : s ≤ 15)
    (ops : List Op) (h2 : NumHrd)
    (hrun : applyOps (NumHrd.new s) ops = Except.ok h2) :
    (h2.nums.map Num.n).Perm (List.range (s * s)) ∧
    (h2.nums.map Num.n).count 0 = 1 := by
  have hperm : (h2.nums.map Num.n).Perm (List.range (s * s)) :=
    ((applyOps_nums_perm hrun).map Num.n).trans (new_nums_perm_range s hs2 hs15)
  refine ⟨hperm, ?_⟩
  rw [hperm.count_eq]
  exact List.count_eq_one_of_mem (List.nodup_range _)
    (List.mem_range.mpr (Nat.mul_pos (by omega) (by omega)))

/-- Claim C1 witness: a concrete run at side 3 performing one blank move to
the left. -/
theorem c1_witness :
    2 ≤ 3 ∧ 3 ≤ 15 ∧
    applyOps (NumHrd.new 3) [Op.zeroMoveOp Direction.Left] =
      Except.ok { size := 3,
                  nums := [Num.new 1, Num.new 2, Num.new 3, Num.new 4, Num.new 5,
                           Num.new 6, Num.new 7, Num.new 0, Num.new 8] } ∧
    ((({ size := 3,
         nums := [Num.new 1, Num.new 2, Num.new 3, Num.new 4, Num.new 5,
                  Num.new 6, Num.new 7, Num.new 0, Num.new 8] } : NumHrd).nums.map
        Num.n).Perm (List.range (3 * 3)) ∧
      (({ size := 3,
          nums := [Num.new 1, Num.new 2, Num.new 3, Num.new 4, Num.new 5,
                   Num.new 6, Num.new 7, Num.new 0, Num.new 8] } : NumHrd).nums.map
        Num.n).count 0 = 1) :=
  ⟨by omega, by omega, rfl,
   c1_multiset_invariant 3 (by omega) (by omega) [Op.zeroMoveOp Direction.Left] _
     rfl⟩

/-- Claim C4 counterexample: the claim quantifies over every side from 2 up,
but at side 16 the u8 product in `NumHrd::new` wraps to 0, the board has a
single cell, and no cell sits at index 16*16 - 1 at all. -/
theorem c4_counterexample :
    (NumHrd.new 16).nums[16 * 16 - 1]? = none ∧
    (NumHrd.new 16).nums[16 * 16 - 1]? ≠ some (Num.new 0) := by
  refine ⟨?_, ?_⟩ <;> decide

/-- Claim C4 (corrected to sides 2..15, where the u8 product in `new` is
exact): the fresh board holds value i + 1 at every index i up to s*s - 2,
holds the blank 0 at the final index s*s - 1, and satisfies `is_win`. -/
theorem c4_new_solved (s : Nat) (hs2 : 2 ≤ s) (hs15 : s ≤ 15) :
    (∀ i, i ≤ s * s - 2 → (NumHrd.new s).nums[i]? = some (Num.new (i + 1))) ∧
    (NumHrd.new s).nums[s * s - 1]? = some (Num.new 0) ∧
    (NumHrd.new s).is_win = true := by
  have hle : s * s ≤ 225 := Nat.mul_le_mul hs15 hs15
  have h4 : 4 ≤ s * s := Nat.mul_le_mul hs2 hs2
  have hmod : (s * s) % 256 = s * s := Nat.mod_eq_of_lt (by omega)
  refine ⟨?_, ?_, ?_⟩
  · intro i hi
    unfold NumHrd.new
    rw [hmod]
    have hlen1 : ((List.range' 1 (s * s - 1)).map Num.new).length = s * s - 1 := by
      simp
    have hilt : i < ((List.range' 1 (s * s - 1)).map Num.new).length := by
      rw [hlen1]
      omega
    have hi2 : i < s * s - 1 := by omega
    rw [List.getElem?_append_left hilt, List.getElem?_map]
    simp [List.getElem?_range', hi2, Nat.add_comm]
  · unfold NumHrd.new
    rw [hmod]
    have hlen1 : ((List.range' 1 (s * s - 1)).map Num.new).length = s * s - 1 := by
      simp
    rw [List.getElem?_append_right hlen1.le, hlen1]
    simp
  · unfold NumHrd.is_win
    have hsize : (NumHrd.new s).size = s := rfl
    rw [hsize]
    simp

/-- Claim C4 witness: the theorem applied at side 3. -/
theorem c4_witness :
    2 ≤ 3 ∧ 3 ≤ 15 ∧
    ((∀ i, i ≤ 3 * 3 - 2 → (NumHrd.new 3).nums[i]? = some (Num.new (i + 1))) ∧
      (NumHrd.new 3).nums[3 * 3 - 1]? = some (Num.new 0) ∧
      (NumHrd.new 3).is_win = true) :=
  ⟨by omega, by omega, c4_new_solved 3 (by omega) (by omega)⟩

/-- Claim C2 counterexample: exchanging index 0 with itself on a fresh side-3
board answers `CannotExchangeNotNeighbouring`, not `Ok(())`. -/
theorem c2_counterexample :
    (NumHrd.new 3).exchange 0 0 =
      Except.ok (NumHrd.new 3, Except.error ErrorKind.CannotExchangeNotNeighbouring) ∧
    (NumHrd.new 3).exchange 0 0 ≠ Except.ok (NumHrd.new 3, Except.ok ()) := by
  constructor
  · rfl
  · intro hcon
    have h2 : (Except.ok
        (NumHrd.new 3, Except.error ErrorKind.CannotExchangeNotNeighbouring) :
        Except String (NumHrd × Except ErrorKind Unit)) =
        Except.ok (NumHrd.new 3, Except.ok ()) := hcon
    simp at h2

/-- Claim C2 (corrected): for every board with a positive side and every
in-range index, exchanging an index with itself is rejected with
`CannotExchangeNotNeighbouring` and leaves the board unchanged — the
`one_index == other_index` early-success check is dead code, because the
neighbouring check runs first and an index difference of 0 is neither 1 nor
the side length. -/
theorem c2_self_exchange_rejected (h : NumHrd) (i : Nat) (hsz : 1 ≤ h.size)
    (hlen : h.nums.length = h.size * h.size) (hi : i < h.size * h.size) :
    h.exchange i i =
      Except.ok (h, Except.error ErrorKind.CannotExchangeNotNeighbouring) := by
  have hilt : i < h.nums.length := by omega
  have hsome : h.num_by_index i = Except.ok h.nums[i]? := num_by_index_of_lt h i hilt
  obtain ⟨v, hv⟩ : ∃ v, h.nums[i]? = some v := by
    rw [List.getElem?_eq_getElem hilt]
    exact ⟨_, rfl⟩
  have hnb : h.is_neighbouring i i = false := by
    unfold NumHrd.is_neighbouring
    simp
    omega
  unfold NumHrd.exchange
  rw [hsome, hv]
  dsimp only
  rw [hnb]
  rfl

/-- Claim C2 witness: the corrected theorem applied at index 0 of a fresh
side-3 board. -/
theorem c2_witness :
    1 ≤ (NumHrd.new 3).size ∧
    (NumHrd.new 3).nums.length = (NumHrd.new 3).size * (NumHrd.new 3).size ∧
    0 < (NumHrd.new 3).size * (NumHrd.new 3).size ∧
    (NumHrd.new 3).exchange 0 0 =
      Except.ok (NumHrd.new 3, Except.error ErrorKind.CannotExchangeNotNeighbouring) :=
  ⟨by decide, by decide, by decide,
   c2_self_exchange_rejected (NumHrd.new 3) 0 (by decide) (by decide) (by decide)⟩

/-- Claim C3 (code bug, evaluated at the failing input): `num_by_index` guards
with `n > len` instead of `n >= len`, so on a side-3 board index 8 answers the
tile, index 9 (= side*side) hits an out-of-bounds `Vec` index and panics
instead of answering `None`, and index 10 answers `None`. -/
theorem c3_boundary_panic :
    (NumHrd.new 3).num_by_index 8 = Except.ok (some (Num.new 0)) ∧
    (NumHrd.new 3).num_by_index 9 = Except.error "index out of bounds" ∧
    (NumHrd.new 3).num_by_index 10 = Except.ok none :=
  ⟨rfl, rfl, rfl⟩

/-- Claim C5 (confirmed): on every board with a positive side,
`get_dirction_index` answers exactly the row/column formulas of the
specification in all four directions. -/
theorem c5_direction_index (h : NumHrd) (hs : 1 ≤ h.size) (index : Nat) :
    h.get_dirction_index index Direction.Left =
      (if index % h.size = 0 then none else some (index - 1)) ∧
    h.get_dirction_index index Direction.Right =
      (if index % h.size = h.size - 1 then none else some (index + 1)) ∧
    h.get_dirction_index index Direction.Top =
      (if index / h.size = 0 then none else some (index - h.size)) ∧
    h.get_dirction_index index Direction.Bottom =
      (if index / h.size = h.size - 1 then none else some (index + h.size)) := by
  refine ⟨rfl, ?_, rfl, rfl⟩
  unfold NumHrd.get_dirction_index
  have hiff : index % h.size + 1 = h.size ↔ index % h.size = h.size - 1 := by
    omega
  simp only [hiff]

/-- Claim C5 witness: the theorem applied at index 0 of a fresh side-3
board. -/
theorem c5_witness :
    1 ≤ (NumHrd.new 3).size ∧
    ((NumHrd.new 3).get_dirction_index 0 Direction.Left =
      (if 0 % (NumHrd.new 3).size = 0 then none else some (0 - 1)) ∧
    (NumHrd.new 3).get_dirction_index 0 Direction.Right =
      (if 0 % (NumHrd.new 3).size = (NumHrd.new 3).size - 1 then none
       else some (0 + 1)) ∧
    (NumHrd.new 3).get_dirction_index 0 Direction.Top =
      (if 0 / (NumHrd.new 3).size = 0 then none else some (0 - (NumHrd.new 3).size)) ∧
    (NumHrd.new 3).get_dirction_index 0 Direction.Bottom =
      (if 0 / (NumHrd.new 3).size = (NumHrd.new 3).size - 1 then none
       else some (0 + (NumHrd.new 3).size))) :=
  ⟨by decide, c5_direction_index (NumHrd.new 3) (by decide) 0⟩

/-- Claim C8 counterexample: on a fresh side-3 board the point (0, 3) is out
of range (column 3 = side), yet its flattened index 3 is accepted by
index-based addressing and `num_by_point` answers the tile with value 4. -/
theorem c8_counterexample :
    (NumHrd.new 3).size = 3 ∧
    (NumHrd.new 3).index_by_point (0, 3) = 3 ∧
    (NumHrd.new 3).num_by_point (0, 3) = Except.ok (some (Num.new 4)) :=
  ⟨rfl, rfl, rfl⟩

/-- Claim C8 (corrected): `index_by_point` performs no bounds validation — it
answers the u8-wrapped flattening (row * side + col) mod 256 and
`num_by_point` is exactly `num_by_index` of that index, so an out-of-range
point whose flattened index lands below the cell count yields a tile rather
than a rejection. -/
theorem c8_point_addressing (h : NumHrd) (r c : Nat) :
    h.num_by_point (r, c) = h.num_by_index ((r * h.size + c) % 256) ∧
    ((r * h.size + c) % 256 < h.nums.length →
      ∃ t, h.num_by_point (r, c) = Except.ok (some t)) := by
  constructor
  · rfl
  · intro hlt
    unfold NumHrd.num_by_point NumHrd.index_by_point
    dsimp only
    rw [num_by_index_of_lt h _ hlt, List.getElem?_eq_getElem hlt]
    exact ⟨_, rfl⟩

/-- Claim C8 witness: the corrected theorem applied to the out-of-range point
(0, 3) on a fresh side-3 board. -/
theorem c8_witness :
    ((0 * (NumHrd.new 3).size + 3) % 256 < (NumHrd.new 3).nums.length) ∧
    (∃ t, (NumHrd.new 3).num_by_point (0, 3) = Except.ok (some t)) :=
  ⟨by decide, (c8_point_addressing (NumHrd.new 3) 0 3).2 (by decide)⟩

/-- Claim C9 (confirmed against the spec-modelled Shuffler): shuffling with a
move count processes exactly the first `move_count` draws of the injected
random source, in order, calling the board's blank move once per draw, and
stops at the first failing blank move, surfacing its error. -/
theorem c9_shuffle_runs_moves (h : NumHrd) (move_count : Nat)
    (src : Nat → Direction) :
    shuffle h move_count src = runMoves h ((List.range move_count).map src) := by
  unfold shuffle
  suffices hgen : ∀ k i h0,
      shuffleFrom src k i h0 = runMoves h0 ((List.range' i k).map src) by
    rw [List.range_eq_range']
    exact hgen move_count 0 h
  intro k
  induction k with
  | zero =>
      intro i h0
      rfl
  | succ m ih =>
      intro i h0
      have hr : List.range' i (m + 1) = i :: List.range' (i + 1) m := rfl
      rw [hr, List.map_cons]
      cases hz : h0.zero_move (src i) with
      | error msg => simp [shuffleFrom, runMoves, hz]
      | ok pr =>
          obtain ⟨h2, res⟩ := pr
          cases res with
          | error e => simp [shuffleFrom, runMoves, hz]
          | ok b => simp [shuffleFrom, runMoves, hz, ih]

/-- Claim C7 (confirmed): for in-range indices, a non-neighbouring pair is
always rejected with `CannotExchangeNotNeighbouring` whatever the tile values,
and a neighbouring pair where neither tile is the blank is always rejected
with `CannotExchangeNoneZero`. -/
theorem c7_exchange_errors (h : NumHrd) (i j : Nat)
    (hlen : h.nums.length = h.size * h.size)
    (hi : i < h.size * h.size) (hj : j < h.size * h.size) :
    (((i : Int) - (j : Int)).natAbs ≠ 1 →
      ((i : Int) - (j : Int)).natAbs ≠ h.size →
      h.exchange i j =
        Except.ok (h, Except.error ErrorKind.CannotExchangeNotNeighbouring)) ∧
    (∀ vi vj, h.nums[i]? = some vi → h.nums[j]? = some vj →
      (((i : Int) - (j : Int)).natAbs = 1 ∨
        ((i : Int) - (j : Int)).natAbs = h.size) →
      vi.n ≠ 0 → vj.n ≠ 0 →
      h.exchange i j =
        Except.ok (h, Except.error ErrorKind.CannotExchangeNoneZero)) := by
  have hilt : i < h.nums.length := by omega
  have hjlt : j < h.nums.length := by omega
  have hsomei : h.num_by_index i = Except.ok h.nums[i]? := num_by_index_of_lt h i hilt
  have hsomej : h.num_by_index j = Except.ok h.nums[j]? := num_by_index_of_lt h j hjlt
  obtain ⟨vi0, hvi0⟩ : ∃ v, h.nums[i]? = some v := by
    rw [List.getElem?_eq_getElem hilt]
    exact ⟨_, rfl⟩
  obtain ⟨vj0, hvj0⟩ : ∃ v, h.nums[j]? = some v := by
    rw [List.getElem?_eq_getElem hjlt]
    exact ⟨_, rfl⟩
  constructor
  · intro h1 h2
    have hnb : h.is_neighbouring i j = false := by
      unfold NumHrd.is_neighbouring
      simp only [Bool.or_eq_false_iff, beq_eq_false_iff_ne, ne_eq]
      exact ⟨h1, h2⟩
    unfold NumHrd.exchange
    rw [hsomei, hvi0, hsomej, hvj0]
    dsimp only
    rw [hnb]
    rfl
  · intro vi vj hvi hvj hnbr hvin hvjn
    have hvi' : vi = vi0 := by
      rw [hvi0] at hvi
      exact (Option.some.inj hvi).symm
    have hvj' : vj = vj0 := by
      rw [hvj0] at hvj
      exact (Option.some.inj hvj).symm
    have hnb : h.is_neighbouring i j = true := by
      unfold NumHrd.is_neighbouring
      simp only [Bool.or_eq_true, beq_iff_eq]
      exact hnbr
    have hie : vi0.is_empty = false := by
      unfold Num.is_empty
      simp only [beq_eq_false_iff_ne, ne_eq]
      rw [← hvi']
      exact hvin
    have hje : vj0.is_empty = false := by
      unfold Num.is_empty
      simp only [beq_eq_false_iff_ne, ne_eq]
      rw [← hvj']
      exact hvjn
    unfold NumHrd.exchange
    rw [hsomei, hvi0, hsomej, hvj0]
    dsimp only
    rw [hnb, hie, hje]
    rfl

/-- Claim C7 witness: on a fresh side-3 board, exchange(0, 4) is rejected as
non-neighbouring and exchange(0, 1) (tiles 1 and 2, neither blank) is
rejected as none-zero. -/
theorem c7_witness :
    ((NumHrd.new 3).nums.length = (NumHrd.new 3).size * (NumHrd.new 3).size ∧
      0 < (NumHrd.new 3).size * (NumHrd.new 3).size ∧
      4 < (NumHrd.new 3).size * (NumHrd.new 3).size) ∧
    (NumHrd.new 3).exchange 0 4 =
      Except.ok (NumHrd.new 3, Except.error ErrorKind.CannotExchangeNotNeighbouring) ∧
    (NumHrd.new 3).exchange 0 1 =
      Except.ok (NumHrd.new 3, Except.error ErrorKind.CannotExchangeNoneZero) :=
  ⟨⟨by decide, by decide, by decide⟩,
   (c7_exchange_errors (NumHrd.new 3) 0 4 (by decide) (by decide) (by decide)).1
     (by decide) (by decide),
   (c7_exchange_errors (NumHrd.new 3) 0 1 (by decide) (by decide) (by decide)).2
     (Num.new 1) (Num.new 2) (by decide) (by decide) (by decide) (by decide)
     (by decide)⟩

/-- The scan inside `exchange` keeps its accumulator when the sought tile does
not occur in the remaining list (first component). -/
theorem scanFrom_fst_of_not_mem (one other : Num) (l : List Num)
    (i o1 o2 : Nat) (hnm : one ∉ l) : (scanFrom one other l i o1 o2).1 = o1 := by
  induction l generalizing i o1 o2 with
  | nil => rfl
  | cons x rest ih =>
      have hx : ¬ (x = one) := fun hcon => hnm (hcon ▸ List.mem_cons_self x rest)
      unfold scanFrom
      rw [if_neg hx]
      exact ih _ _ _ fun hmem => hnm (List.mem_cons_of_mem x hmem)

/-- The scan inside `exchange` keeps its accumulator when the sought tile does
not occur in the remaining list (second component). -/
theorem scanFrom_snd_of_not_mem (one other : Num) (l : List Num)
    (i o1 o2 : Nat) (hnm : other ∉ l) : (scanFrom one other l i o1 o2).2 = o2 := by
  induction l generalizing i o1 o2 with
  | nil => rfl
  | cons x rest ih =>
      have hx : ¬ (x = other) := fun hcon => hnm (hcon ▸ List.mem_cons_self x rest)
      unfold scanFrom
      rw [if_neg hx]
      exact ih _ _ _ fun hmem => hnm (List.mem_cons_of_mem x hmem)

/-- When the sought tile occurs at exactly one position, the scan's first
component finds it (shifted by the running counter). -/
theorem scanFrom_fst_eq (one other : Num) (l : List Num) (k : Nat)
    (hk : l[k]? = some one) (huniq : ∀ m, l[m]? = some one → m = k) :
    ∀ i o1 o2, (scanFrom one other l i o1 o2).1 = i + k := by
  induction l generalizing k with
  | nil => simp at hk
  | cons x rest ih =>
      intro i o1 o2
      cases k with
      | zero =>
          simp only [List.getElem?_cons_zero, Option.some.injEq] at hk
          subst hk
          unfold scanFrom
          rw [if_pos rfl]
          have hnm : x ∉ rest := by
            intro hmem
            obtain ⟨m, hm⟩ := List.getElem?_of_mem hmem
            have := huniq (m + 1) (by simpa using hm)
            omega
          rw [scanFrom_fst_of_not_mem x other rest (i + 1) i _ hnm]
          omega
      | succ m =>
          simp only [List.getElem?_cons_succ] at hk
          have hx : ¬ (x = one) := by
            intro hcon
            have := huniq 0 (by simp [hcon])
            omega
          have huniq2 : ∀ m2, rest[m2]? = some one → m2 = m := by
            intro m2 hm2
            have := huniq (m2 + 1) (by simpa using hm2)
            omega
          unfold scanFrom
          rw [if_neg hx, ih m hk huniq2 (i + 1) _ _]
          omega

/-- When the sought tile occurs at exactly one position, the scan's second
component finds it (shifted by the running counter). -/
theorem scanFrom_snd_eq (one other : Num) (l : List Num) (k : Nat)
    (hk : l[k]? = some other) (huniq : ∀ m, l[m]? = some other → m = k) :
    ∀ i o1 o2, (scanFrom one other l i o1 o2).2 = i + k := by
  induction l generalizing k with
  | nil => simp at hk
  | cons x rest ih =>
      intro i o1 o2
      cases k with
      | zero =>
          simp only [List.getElem?_cons_zero, Option.some.injEq] at hk
          subst hk
          unfold scanFrom
          rw [if_pos rfl]
          have hnm : x ∉ rest := by
            intro hmem
            obtain ⟨m, hm⟩ := List.getElem?_of_mem hmem
            have := huniq (m + 1) (by simpa using hm)
            omega
          rw [scanFrom_snd_of_not_mem one x rest (i + 1) _ i hnm]
          omega
      | succ m =>
          simp only [List.getElem?_cons_succ] at hk
          have hx : ¬ (x = other) := by
            intro hcon
            have := huniq 0 (by simp [hcon])
            omega
          have huniq2 : ∀ m2, rest[m2]? = some other → m2 = m := by
            intro m2 hm2
            have := huniq (m2 + 1) (by simpa using hm2)
            omega
          unfold scanFrom
          rw [if_neg hx, ih m hk huniq2 (i + 1) _ _]
          omega

/-- Claim C6 (confirmed): on a board with pairwise distinct tile values, every
successful exchange of two distinct indices puts the former tile of cell j at
cell i, the former tile of cell i at cell j, and leaves every other cell
unchanged. -/
theorem c6_exchange_swap (h h2 : NumHrd) (i j : Nat)
    (hnd : (h.nums.map Num.n).Nodup) (hij : ¬ (i = j))
    (hex : h.exchange i j = Except.ok (h2, Except.ok ())) :
    h2.nums[i]? = h.nums[j]? ∧ h2.nums[j]? = h.nums[i]? ∧
    (∀ k, ¬ (k = i) → ¬ (k = j) → h2.nums[k]? = h.nums[k]?) := by
  have hnd2 : h.nums.Nodup := hnd.of_map
  unfold NumHrd.exchange at hex
  split at hex
  · cases hex
  · cases hex
  · simp at hex
  · simp at hex
  · rename_i one other hone hother
    split at hex
    · simp at hex
    · split at hex
      · simp at hex
      · split at hex
        · rename_i hguard
          rw [beq_iff_eq] at hguard
          exact absurd hguard hij
        · split at hex
          · rename_i temp oval htemp hoval
            have hvi : h.nums[i]? = some one := num_by_index_ok_some hone
            have hvj : h.nums[j]? = some other := num_by_index_ok_some hother
            have huniq1 : ∀ m, h.nums[m]? = some one → m = i := fun m hm =>
              List.getElem?_inj (lt_length_of_getElem?_some hm) hnd2
                (hm.trans hvi.symm)
            have huniq2 : ∀ m, h.nums[m]? = some other → m = j := fun m hm =>
              List.getElem?_inj (lt_length_of_getElem?_some hm) hnd2
                (hm.trans hvj.symm)
            have hS1 : (scanFrom one other h.nums 0 0 0).1 = i := by
              rw [scanFrom_fst_eq one other h.nums i hvi huniq1 0 0 0]
              omega
            have hS2 : (scanFrom one other h.nums 0 0 0).2 = j := by
              rw [scanFrom_snd_eq one other h.nums j hvj huniq2 0 0 0]
              omega
            rw [hS1] at htemp
            rw [hS2] at hoval
            simp only [Except.ok.injEq, Prod.mk.injEq] at hex
            obtain ⟨hh2, -⟩ := hex
            rw [hS1, hS2] at hh2
            subst hh2
            have hilen : i < h.nums.length := lt_length_of_getElem?_some hvi
            have hjlen : j < h.nums.length := lt_length_of_getElem?_some hvj
            refine ⟨?_, ?_, ?_⟩
            · show ((h.nums.set i oval).set j temp)[i]? = h.nums[j]?
              rw [List.getElem?_set_ne (fun hcon => hij hcon.symm),
                List.getElem?_set_eq_of_lt oval hilen]
              exact hoval.symm
            · show ((h.nums.set i oval).set j temp)[j]? = h.nums[i]?
              rw [List.getElem?_set_eq_of_lt temp (by simpa using hjlen)]
              exact htemp.symm
            · intro k hk1 hk2
              show ((h.nums.set i oval).set j temp)[k]? = h.nums[k]?
              rw [List.getElem?_set_ne (fun hcon => hk2 hcon.symm),
                List.getElem?_set_ne (fun hcon => hk1 hcon.symm)]
          · cases hex

/-- Claim C6 witness: the theorem applied to the exchange of indices 7 and 8
(tile 8 and the blank) on a fresh side-3 board. -/
theorem c6_witness :
    ((NumHrd.new 3).nums.map Num.n).Nodup ∧ ¬ ((7 : Nat) = 8) ∧
    (NumHrd.new 3).exchange 7 8 =
      Except.ok
        ({ size := 3,
           nums := [Num.new 1, Num.new 2, Num.new 3, Num.new 4, Num.new 5,
                    Num.new 6, Num.new 7, Num.new 0, Num.new 8] },
         Except.ok ()) ∧
    (({ size := 3,
        nums := [Num.new 1, Num.new 2, Num.new 3, Num.new 4, Num.new 5,
                 Num.new 6, Num.new 7, Num.new 0, Num.new 8] } : NumHrd).nums[7]? =
        (NumHrd.new 3).nums[8]? ∧
      ({ size := 3,
         nums := [Num.new 1, Num.new 2, Num.new 3, Num.new 4, Num.new 5,
                  Num.new 6, Num.new 7, Num.new 0, Num.new 8] } : NumHrd).nums[8]? =
        (NumHrd.new 3).nums[7]? ∧
      (∀ k, ¬ (k = 7) → ¬ (k = 8) →
        ({ size := 3,
           nums := [Num.new 1, Num.new 2, Num.new 3, Num.new 4, Num.new 5,
                    Num.new 6, Num.new 7, Num.new 0, Num.new 8] } : NumHrd).nums[k]? =
          (NumHrd.new 3).nums[k]?)) :=
  ⟨by decide, by decide, rfl,
   c6_exchange_swap (NumHrd.new 3) _ 7 8 (by decide) (by decide) rfl⟩

end Huarongdao
